import Mathlib

/-!
Shallow embedding of the `fastq-comparison` repository: two FASTQ parsers
(`fancy_parser.rs`, the descriptive variant, and `unfancy_parser.rs`, the
strict variant) over a pure character-stream model.

Modelling conventions:
* Byte streams and Rust `String`s are modelled as `List Char` (`Str`); all
  inputs of interest are ASCII, where Rust's byte-level operations coincide
  with the character-level ones.
* Rust aborts (a failed `assert!`, `Option::unwrap` on `None`, an
  out-of-bounds string slice) are modelled by the `PanicOr.panic` value.
* The `usize` subtraction `l - desc.len() - 1` in the descriptive parser is
  modelled with release-profile wrapping semantics: on underflow the wrapped
  value exceeds the string length, so the subsequent `truncate` is a no-op.
* The underlying line source never fails, so the wrapped-I/O error kind of
  `ParseError` can never be produced and is omitted from the embedding.
-/

/-- Character strings / byte streams, as used by both parsers. -/
abbrev Str := List Char

/-- Rust `str::is_ascii`: every byte (here: character) is below 128. -/
def isAsciiStr (s : Str) : Bool :=
  s.all (fun c => c.toNat < 128)

/-- Rust `char::is_whitespace`, restricted to the ASCII whitespace characters
that can occur in the inputs of interest. -/
def wsChar (c : Char) : Bool := c.isWhitespace

/-- Rust `str::trim_right` (trailing-whitespace trim), used by the strict
variant's accessors. -/
def trimRight (s : Str) : Str :=
  (s.reverse.dropWhile wsChar).reverse

instance exceptDecEq {ε α : Type} [DecidableEq ε] [DecidableEq α] : DecidableEq (Except ε α) := fun a b =>
  match a, b with
  | .ok x, .ok y =>
    if h : x = y then isTrue (h ▸ rfl) else isFalse (fun hh => h (by cases hh; rfl))
  | .ok _, .error _ => isFalse (fun hh => Except.noConfusion hh)
  | .error _, .ok _ => isFalse (fun hh => Except.noConfusion hh)
  | .error x, .error y =>
    if h : x = y then isTrue (h ▸ rfl) else isFalse (fun hh => h (by cases hh; rfl))

/-- Result of running a piece of Rust code that may abort the process
(`assert!` failure, `unwrap` on `None`, out-of-bounds slice). -/
inductive PanicOr (α : Type) where
  | panic : PanicOr α
  | ok : α → PanicOr α
deriving DecidableEq

/-- The line-source contract (`BufRead::read_line` on a pure stream): return
the next line including its terminating newline (or the whole rest of the
stream when no newline remains; empty at end of stream), together with the
remaining stream. -/
def readLine : Str → Str × Str
  | [] => ([], [])
  | c :: rest =>
    if c = '\n' then (['\n'], rest)
    else
      let p := readLine rest
      (c :: p.1, p.2)

namespace Fancy

/-- `fancy_parser::ParseError` (the wrapped-I/O kind cannot arise from the
pure line source and is omitted). -/
inductive ParseError where
  | NoAt : Char → ParseError
  | NoPlus : Str → Char → ParseError
  | Incomplete : Str → ParseError
  | LengthMismatch : Str → Str → ParseError
deriving DecidableEq

/-- `fancy_parser::Record`. -/
structure Record where
  id : Str
  desc : Option Str
  seq : Str
  qual : Str
deriving DecidableEq

/-- `Record::from_strings`. -/
def Record.from_strings (id : Str) (desc : Option Str) (seq qual : Str) : Record :=
  ⟨id, desc, seq, qual⟩

/-- `Record::new`. -/
def Record.new : Record := ⟨[], none, [], []⟩

/-- `Record::id` accessor (`Some(self.id.as_ref())`). -/
def Record.idOpt (r : Record) : Option Str := some r.id

/-- `Record::desc` accessor. -/
def Record.descOpt (r : Record) : Option Str := r.desc

/-- `Record::is_empty`. -/
def Record.is_empty (r : Record) : Bool :=
  r.id.isEmpty && r.desc.isNone && r.seq.isEmpty && r.qual.isEmpty

/-- `Record::clear`. -/
def Record.clear (_ : Record) : Record := ⟨[], none, [], []⟩

/-- `fancy_parser::Record::check`, exactly as written in the source:
the first test is `if !self.id.is_empty()`. -/
def Record.check (r : Record) : Except String Unit :=
  if !r.id.isEmpty then .error "Expecting id for FastQ record."
  else if !(isAsciiStr r.seq) then .error "Non-ascii character found in sequence."
  else if !(isAsciiStr r.qual) then .error "Non-ascii character found in qualities."
  else if r.seq.length ≠ r.qual.length then .error "Unequal length of sequence an qualities."
  else .ok ()

/-- `fancy_parser::read_line_without_nl`: read a line; a line of length at
most one byte is an `Incomplete` error carrying the caller-supplied context;
otherwise the trailing newline is asserted (its absence aborts) and popped. -/
def read_line_without_nl (s : Str) (f : Str) : PanicOr (Except ParseError Str × Str) :=
  let p := readLine s
  if p.1.length ≤ 1 then .ok (.error (.Incomplete f), p.2)
  else if p.1.getLast? = some '\n' then .ok (.ok p.1.dropLast, p.2)
  else .panic

/-- The last whitespace-delimited token of a string
(`str::split_whitespace().next_back()`). -/
def lastToken (s : Str) : Option Str :=
  let t := (s.reverse.dropWhile wsChar).takeWhile (fun c => !(wsChar c))
  if t.isEmpty then none else some t.reverse

/-- The header split performed inline by `FastqReader::next`: take the last
whitespace-delimited token as the description, then
`header.truncate(l - desc.len() - 1)`; with release-profile wrapping
semantics, the truncation is a no-op when the subtraction underflows. -/
def splitHeader (header : Str) : Str × Option Str :=
  match lastToken header with
  | none => (header, none)
  | some d =>
    let l := header.length
    (if d.length + 1 ≤ l then header.take (l - d.length - 1) else header, some d)

/-- `<FastqReader as Iterator>::next`, as a function of the remaining
stream. Returns the yielded item (`none` = iterator exhausted) and the
stream left behind, or a panic. -/
def FastqReader.next (s : Str) : PanicOr (Option (Except ParseError Record) × Str) :=
  match s with
  | [] => .ok (none, [])
  | b :: rest =>
    if b ≠ '@' then .ok (some (.error (.NoAt b)), rest)
    else
      match read_line_without_nl rest ("@<nothing>".data) with
      | .panic => .panic
      | .ok (.error e, r1) => .ok (some (.error e), r1)
      | .ok (.ok header0, r1) =>
        let hd := splitHeader header0
        let header := hd.1
        let desc := hd.2
        match read_line_without_nl r1 ('@' :: header ++ "\n<nothing>\n+\n<nothing>".data) with
        | .panic => .panic
        | .ok (.error e, r2) => .ok (some (.error e), r2)
        | .ok (.ok seq, r2) =>
          let q := readLine r2
          match q.1.head? with
          | some c =>
            if c = '+' then
              match read_line_without_nl q.2 ('@' :: header ++ '\n' :: seq ++ "\n+\n<nothing>".data) with
              | .panic => .panic
              | .ok (.error e, r4) => .ok (some (.error e), r4)
              | .ok (.ok qual, r4) =>
                .ok (some (if seq.length = qual.length
                  then .ok (Record.from_strings header desc seq qual)
                  else .error (.LengthMismatch seq qual)), r4)
            else .ok (some (.error (.NoPlus ('@' :: header ++ '\n' :: seq) c)), q.2)
          | none => .panic

end Fancy

namespace Unfancy

/-- `unfancy_parser::Record`: raw header, sequence and quality lines, each
still carrying its newline when one was read. -/
structure Record where
  header : Str
  seq : Str
  qual : Str
deriving DecidableEq

/-- `Record::new`. -/
def Record.new : Record := ⟨[], [], []⟩

/-- `Record::clear`. -/
def Record.clear (_ : Record) : Record := ⟨[], [], []⟩

/-- Rust `str::splitn(2, ' ')` presented as (first piece, rest after the
first space when one occurs). -/
def splitFirstSpace : Str → Str × Option Str
  | [] => ([], none)
  | c :: rest =>
    if c = ' ' then ([], some rest)
    else
      let p := splitFirstSpace rest
      (c :: p.1, p.2)

/-- `Record::id`: `self.header[1..].trim_right().splitn(2, ' ').next()`.
The slice `header[1..]` aborts when the header is empty. -/
def Record.idOpt (r : Record) : PanicOr (Option Str) :=
  if r.header.isEmpty then .panic
  else .ok (some (splitFirstSpace (trimRight (r.header.drop 1))).1)

/-- `Record::desc`: `self.header[1..].trim_right().splitn(2, ' ').skip(1).next()`. -/
def Record.descOpt (r : Record) : PanicOr (Option Str) :=
  if r.header.isEmpty then .panic
  else .ok (splitFirstSpace (trimRight (r.header.drop 1))).2

/-- `Record::seq` accessor (trailing-whitespace trimmed). -/
def Record.seqAcc (r : Record) : Str := trimRight r.seq

/-- `Record::qual` accessor (trailing-whitespace trimmed). -/
def Record.qualAcc (r : Record) : Str := trimRight r.qual

/-- `Record::is_empty`. -/
def Record.is_empty (r : Record) : Bool :=
  r.header.isEmpty && r.seq.isEmpty && r.qual.isEmpty

/-- `unfancy_parser::Record::check`. -/
def Record.check (r : Record) : PanicOr (Except String Unit) :=
  match r.idOpt with
  | .panic => .panic
  | .ok i =>
    if i.isNone then .ok (.error "Expecting id for FastQ record.")
    else if !(isAsciiStr r.seq) then .ok (.error "Non-ascii character found in sequence.")
    else if !(isAsciiStr r.qual) then .ok (.error "Non-ascii character found in qualities.")
    else if r.seqAcc.length ≠ r.qualAcc.length then .ok (.error "Unequal length of sequence an qualities.")
    else .ok (.ok ())

/-- `unfancy_parser::Reader` state: the remaining stream together with the
`sep_line` buffer, which the source appends to and never clears. -/
structure Reader where
  stream : Str
  sep_line : Str
deriving DecidableEq

/-- `Reader::read`: clear the target record, read the header line; an empty
read leaves the record empty (end of stream); a header not starting with `@`
is an error; otherwise read sequence, separator and quality lines, erring
when the quality line is empty. -/
def Reader.read (rd : Reader) : Except String Record × Reader :=
  let h := readLine rd.stream
  if h.1.isEmpty then (.ok Record.new, ⟨h.2, rd.sep_line⟩)
  else if h.1.head? ≠ some '@' then (.error "Expected @ at record start.", ⟨h.2, rd.sep_line⟩)
  else
    let s := readLine h.2
    let p := readLine s.2
    let q := readLine p.2
    if q.1.isEmpty then
      (.error "Incomplete record. Each FastQ record has to consist of 4 lines: header, sequence, separator and qualities.", ⟨q.2, rd.sep_line ++ p.1⟩)
    else
      (.ok ⟨h.1, s.1, q.1⟩, ⟨q.2, rd.sep_line ++ p.1⟩)

/-- `<Records as Iterator>::next`: run `read` on a fresh record; a
successful empty read is end of iteration. -/
def Records.next (rd : Reader) : Option (Except String Record) × Reader :=
  let p := Reader.read rd
  match p.1 with
  | .ok r => if r.is_empty then (none, p.2) else (some (.ok r), p.2)
  | .error e => (some (.error e), p.2)

end Unfancy

/-- Modelled from the spec: the repository has no formatter for the
descriptive variant's records (serialization is declared out of scope as
trivial format interpolation); §8 of the spec fixes the round-trip layout
`@id desc\nseq\n+\nqual\n` (description line component present only when the
record carries one). -/
def formatRecord (r : Fancy.Record) : Str :=
  match r.desc with
  | some d => '@' :: ((r.id ++ ' ' :: d) ++ '\n' :: (r.seq ++ '\n' :: ('+' :: '\n' :: (r.qual ++ ['\n']))))
  | none => '@' :: (r.id ++ '\n' :: (r.seq ++ '\n' :: ('+' :: '\n' :: (r.qual ++ ['\n']))))

/-! ### Helper lemmas about the line source and the string operations -/

theorem readLine_append (l r : Str) (h : '\n' ∉ l) :
    readLine (l ++ '\n' :: r) = (l ++ ['\n'], r) := by
  induction l with
  | nil => simp [readLine]
  | cons c t ih =>
    have hc : ¬ c = '\n' := by
      intro e; apply h; rw [← e]; exact List.mem_cons_self c t
    have ht : '\n' ∉ t := fun m => h (List.mem_cons_of_mem c m)
    simp only [List.cons_append, readLine, if_neg hc, List.append_eq, ih ht]

theorem read_line_without_nl_ok (l r f : Str) (h : '\n' ∉ l) (hne : l ≠ []) :
    Fancy.read_line_without_nl (l ++ '\n' :: r) f = .ok (.ok l, r) := by
  have h1 : ¬ (l ++ ['\n']).length ≤ 1 := by
    rcases l with _ | ⟨c, t⟩
    · exact absurd rfl hne
    · simp [List.length_append]
  unfold Fancy.read_line_without_nl
  rw [readLine_append l r h]
  simp only [if_neg h1, List.getLast?_concat, List.dropLast_concat]
  simp

theorem takeWhile_all (p : Char → Bool) (l : Str) (hl : ∀ c ∈ l, p c = true) :
    List.takeWhile p l = l := by
  induction l with
  | nil => rfl
  | cons c t ih =>
    simp [List.takeWhile_cons, hl c (List.mem_cons_self c t),
      ih (fun a m => hl a (List.mem_cons_of_mem c m))]

theorem takeWhile_all_append (p : Char → Bool) (l : Str) (b : Char) (r : Str)
    (hl : ∀ c ∈ l, p c = true) (hb : p b = false) :
    List.takeWhile p (l ++ b :: r) = l := by
  induction l with
  | nil => simp [List.takeWhile_cons, hb]
  | cons c t ih =>
    simp [List.takeWhile_cons, hl c (List.mem_cons_self c t),
      ih (fun a m => hl a (List.mem_cons_of_mem c m))]

theorem trimRight_eq_self (l : Str) (c : Char) (t : Str)
    (h : l.reverse = c :: t) (hc : wsChar c = false) : trimRight l = l := by
  unfold trimRight
  rw [h, List.dropWhile_cons, hc]
  simp only [Bool.false_eq_true, if_false]
  rw [← h, List.reverse_reverse]

theorem splitFirstSpace_no_space (l : Str) (h : ' ' ∉ l) :
    Unfancy.splitFirstSpace l = (l, none) := by
  induction l with
  | nil => rfl
  | cons c t ih =>
    have hc : ¬ c = ' ' := by
      intro e; apply h; rw [← e]; exact List.mem_cons_self c t
    simp only [Unfancy.splitFirstSpace, if_neg hc, List.append_eq,
      ih (fun m => h (List.mem_cons_of_mem c m))]

theorem splitFirstSpace_append (x y : Str) (h : ' ' ∉ x) :
    Unfancy.splitFirstSpace (x ++ ' ' :: y) = (x, some y) := by
  induction x with
  | nil => simp [Unfancy.splitFirstSpace]
  | cons c t ih =>
    have hc : ¬ c = ' ' := by
      intro e; apply h; rw [← e]; exact List.mem_cons_self c t
    simp only [List.cons_append, Unfancy.splitFirstSpace, if_neg hc, List.append_eq,
      ih (fun m => h (List.mem_cons_of_mem c m))]

theorem lastToken_append (x d : Str) (hd : d ≠ []) (hws : ∀ c ∈ d, wsChar c = false) :
    Fancy.lastToken (x ++ ' ' :: d) = some d := by
  obtain ⟨c, t, hrev⟩ : ∃ c t, d.reverse = c :: t := by
    rcases hr : d.reverse with _ | ⟨c, t⟩
    · exact absurd (List.reverse_eq_nil_iff.mp hr) hd
    · exact ⟨c, t, rfl⟩
  have hmem : ∀ a ∈ (c :: t : Str), a ∈ d := by
    intro a ha; rw [← hrev] at ha; exact List.mem_reverse.mp ha
  have hc : wsChar c = false := hws c (hmem c (List.mem_cons_self c t))
  have htall : ∀ a ∈ t, (!(wsChar a)) = true := by
    intro a ha
    rw [hws a (hmem a (List.mem_cons_of_mem c ha))]; rfl
  have hrw : (x ++ ' ' :: d).reverse = c :: (t ++ ' ' :: x.reverse) := by
    rw [List.reverse_append, List.reverse_cons, hrev]
    simp
  unfold Fancy.lastToken
  rw [hrw, List.dropWhile_cons, hc]
  simp only [Bool.false_eq_true, if_false, List.takeWhile_cons, hc, Bool.not_false]
  rw [takeWhile_all_append _ t ' ' x.reverse htall (by simp [wsChar])]
  simp only [if_true, List.isEmpty_cons, Bool.false_eq_true, if_false]
  rw [← hrev, List.reverse_reverse]

theorem lastToken_all (d : Str) (hd : d ≠ []) (hws : ∀ c ∈ d, wsChar c = false) :
    Fancy.lastToken d = some d := by
  obtain ⟨c, t, hrev⟩ : ∃ c t, d.reverse = c :: t := by
    rcases hr : d.reverse with _ | ⟨c, t⟩
    · exact absurd (List.reverse_eq_nil_iff.mp hr) hd
    · exact ⟨c, t, rfl⟩
  have hmem : ∀ a ∈ (c :: t : Str), a ∈ d := by
    intro a ha; rw [← hrev] at ha; exact List.mem_reverse.mp ha
  have hc : wsChar c = false := hws c (hmem c (List.mem_cons_self c t))
  have htall : ∀ a ∈ t, (!(wsChar a)) = true := by
    intro a ha
    rw [hws a (hmem a (List.mem_cons_of_mem c ha))]; rfl
  unfold Fancy.lastToken
  rw [hrev, List.dropWhile_cons, hc]
  simp only [Bool.false_eq_true, if_false, List.takeWhile_cons, hc, Bool.not_false]
  rw [takeWhile_all _ t htall]
  simp only [if_true, List.isEmpty_cons, Bool.false_eq_true, if_false]
  rw [← hrev, List.reverse_reverse]

theorem splitHeader_append (x d : Str) (hd : d ≠ []) (hws : ∀ c ∈ d, wsChar c = false) :
    Fancy.splitHeader (x ++ ' ' :: d) = (x, some d) := by
  unfold Fancy.splitHeader
  rw [lastToken_append x d hd hws]
  have hlen : (x ++ ' ' :: d).length = x.length + (d.length + 1) := by
    simp [List.length_append]
  have hcond : d.length + 1 ≤ (x ++ ' ' :: d).length := by rw [hlen]; omega
  have harith : (x ++ ' ' :: d).length - d.length - 1 = x.length := by rw [hlen]; omega
  simp only [if_pos hcond, harith]
  rw [List.take_left]

theorem splitHeader_all (d : Str) (hd : d ≠ []) (hws : ∀ c ∈ d, wsChar c = false) :
    Fancy.splitHeader d = (d, some d) := by
  unfold Fancy.splitHeader
  rw [lastToken_all d hd hws]
  have hcond : ¬ d.length + 1 ≤ d.length := by omega
  simp only [if_neg hcond]

/-! ### Claim theorems -/

/-- Claim C1 (code bug): the spec requires `check` to report the missing-id
error exactly when a non-empty record has an empty id, in the fixed order
missing id, non-ASCII sequence, non-ASCII quality, length mismatch, for both
variants. The code contradicts this: the descriptive variant's id test is
inverted (a record with the non-empty id `r1` reports the missing-id error,
and a record with an empty id and mismatching field lengths reports the
length error instead), the strict variant's missing-id branch is unreachable
for a non-empty header (a record whose id token is empty reports the length
error, never the missing-id error), and on a fully empty strict record
`check` aborts instead of succeeding. -/
theorem claim1_check_eval :
    Fancy.Record.check ⟨"r1".data, none, "ACGT".data, "!!!!".data⟩ =
      .error "Expecting id for FastQ record." ∧
    Fancy.Record.check ⟨[], none, "AB".data, "!".data⟩ =
      .error "Unequal length of sequence an qualities." ∧
    (Unfancy.Record.mk "@ d\n".data "AB\n".data "!\n".data).check =
      .ok (.error "Unequal length of sequence an qualities.") ∧
    Unfancy.Record.new.check = .panic := by
  decide

/-- Claim C3 (code bug): the claim (and the spec's propagation policy) says
every call of the descriptive iterator returns a value and never faults. The
code aborts on the input `@r1\nACGT\n` (end of stream just before the
separator line: `unwrap` of the first byte of the empty separator line) and
on `@r1\nACGT` (last line without terminator: the trailing-newline assertion
fails). -/
theorem claim3_panic_eval :
    Fancy.FastqReader.next "@r1\nACGT\n".data = .panic ∧
    Fancy.FastqReader.next "@r1\nACGT".data = .panic := by
  decide

/-- Claim C5: parsing `@r1\nACGT\n+\n!!!\n` with the descriptive parser
yields exactly one item, a `LengthMismatch` error carrying the sequence
`ACGT` and the quality `!!!`: the first call yields that error and consumes
the whole stream, and the next call on the exhausted stream yields `none`. -/
theorem claim5_length_mismatch :
    Fancy.FastqReader.next "@r1\nACGT\n+\n!!!\n".data =
      .ok (some (.error (.LengthMismatch "ACGT".data "!!!".data)), []) ∧
    Fancy.FastqReader.next [] = .ok (none, []) := by
  decide

/-- Claim C7: on each call the descriptive iterator first reads one byte:
an empty stream yields `none` (end of sequence, no error), and a first byte
other than `@` yields a `NoAt` error carrying exactly that byte. -/
theorem claim7_start_marker :
    Fancy.FastqReader.next [] = .ok (none, []) ∧
    (∀ (b : Char) (rest : Str), b ≠ '@' →
      Fancy.FastqReader.next (b :: rest) = .ok (some (.error (.NoAt b)), rest)) := by
  refine ⟨rfl, fun b rest h => ?_⟩
  simp only [Fancy.FastqReader.next]
  rw [if_pos h]

/-- Witness for C7 at the concrete input `Xr1\n`: the error carries the
byte value of `X`. -/
theorem claim7_start_marker_witness :
    Fancy.FastqReader.next ('X' :: "r1\n".data) = .ok (some (.error (.NoAt 'X')), "r1\n".data) :=
  claim7_start_marker.2 'X' "r1\n".data (by decide)

/-- Claim C9: on a strict-variant record with an empty header — freshly
constructed, cleared, or any other — the accessors `id()` and `desc()` and
hence `check()` abort (the slice `header[1..]` is out of bounds) instead of
returning a value. -/
theorem claim9_empty_header_panics (r : Unfancy.Record) (h : r.header = []) :
    r.idOpt = .panic ∧ r.descOpt = .panic ∧ r.check = .panic := by
  have hb : r.header.isEmpty = true := by rw [h]; rfl
  have h1 : r.idOpt = .panic := by
    unfold Unfancy.Record.idOpt; rw [if_pos hb]
  refine ⟨h1, ?_, ?_⟩
  · unfold Unfancy.Record.descOpt; rw [if_pos hb]
  · unfold Unfancy.Record.check; rw [h1]

/-- Witness for C9: a freshly constructed strict record and a cleared one
both have an empty header, and their accessors and `check` abort. -/
theorem claim9_empty_header_panics_witness :
    (Unfancy.Record.new.idOpt = .panic ∧ Unfancy.Record.new.descOpt = .panic ∧
      Unfancy.Record.new.check = .panic) ∧
    ((Unfancy.Record.mk "@x\n".data "A\n".data "!\n".data).clear.idOpt = .panic ∧
      (Unfancy.Record.mk "@x\n".data "A\n".data "!\n".data).clear.descOpt = .panic ∧
      (Unfancy.Record.mk "@x\n".data "A\n".data "!\n".data).clear.check = .panic) :=
  ⟨claim9_empty_header_panics Unfancy.Record.new rfl,
   claim9_empty_header_panics ((Unfancy.Record.mk "@x\n".data "A\n".data "!\n".data).clear) rfl⟩

/-- Claim C10: `id()` never returns `None` through the accessor: the
descriptive variant's accessor is unconditionally `Some`, and the strict
variant's accessor on any record with a non-empty header returns neither
`Ok(None)` nor a fault — in particular a header that is just the marker
gives `Some("")`. -/
theorem claim10_id_never_none :
    (∀ r : Fancy.Record, r.idOpt = some r.id ∧ r.idOpt ≠ none) ∧
    (∀ r : Unfancy.Record, r.header ≠ [] → r.idOpt ≠ .ok none ∧ r.idOpt ≠ .panic) ∧
    (∀ s q : Str, (Unfancy.Record.mk ['@'] s q).idOpt = .ok (some [])) := by
  refine ⟨fun r => ⟨rfl, by simp [Fancy.Record.idOpt]⟩, fun r h => ?_, fun s q => rfl⟩
  have hb : r.header.isEmpty = false := by
    rcases hh : r.header with _ | ⟨c, t⟩
    · exact absurd hh h
    · rfl
  unfold Unfancy.Record.idOpt
  rw [hb]
  simp

/-- Witness for C10 at concrete records. -/
theorem claim10_id_never_none_witness :
    (Fancy.Record.new.idOpt = some Fancy.Record.new.id ∧ Fancy.Record.new.idOpt ≠ none) ∧
    ((Unfancy.Record.mk "@r1\n".data [] []).idOpt ≠ .ok none ∧
      (Unfancy.Record.mk "@r1\n".data [] []).idOpt ≠ .panic) ∧
    (Unfancy.Record.mk ['@'] "s".data "q".data).idOpt = .ok (some []) :=
  ⟨claim10_id_never_none.1 Fancy.Record.new,
   claim10_id_never_none.2.1 (Unfancy.Record.mk "@r1\n".data [] []) (by decide),
   claim10_id_never_none.2.2 "s".data "q".data⟩

/-- Claim C2 counterexample: the claim says `id()` is the token up to the
first whitespace run for both variants. On the header `a b c` the
descriptive parser instead yields id `a b` and description `c` (the LAST
token is split off), so the claim is false at this input. -/
theorem claim2_counterexample :
    Fancy.FastqReader.next "@a b c\nAC\n+\n!!\n".data =
      .ok (some (.ok ⟨"a b".data, some "c".data, "AC".data, "!!".data⟩), []) ∧
    ("a b".data : Str) ≠ "a".data := by
  decide

/-- Claim C2 (amended): the strict variant splits at the FIRST space of the
trimmed header tail (`@x y` with `x` space-free and `y` ending in
non-whitespace gives id `x` and desc `Some y`, a space-free `@x` gives id
`x` and desc `None`), while the descriptive variant splits off the LAST
whitespace-delimited token (`x d` with `d` nonempty and whitespace-free
gives id `x` — which may itself contain whitespace — and desc `Some d`, and
a whitespace-free nonempty header `h` gives id `h` together with desc
`Some h`, not `None`, the truncation being a wrapping no-op). -/
theorem claim2_amended :
    (∀ (x y0 : Str) (c : Char) (s q : Str), ' ' ∉ x → wsChar c = false →
      (Unfancy.Record.mk ('@' :: (x ++ ' ' :: (y0 ++ [c]))) s q).idOpt = .ok (some x) ∧
      (Unfancy.Record.mk ('@' :: (x ++ ' ' :: (y0 ++ [c]))) s q).descOpt = .ok (some (y0 ++ [c]))) ∧
    (∀ (x0 : Str) (c : Char) (s q : Str), ' ' ∉ x0 ++ [c] → wsChar c = false →
      (Unfancy.Record.mk ('@' :: (x0 ++ [c])) s q).idOpt = .ok (some (x0 ++ [c])) ∧
      (Unfancy.Record.mk ('@' :: (x0 ++ [c])) s q).descOpt = .ok none) ∧
    (∀ x d : Str, d ≠ [] → (∀ c ∈ d, wsChar c = false) →
      Fancy.splitHeader (x ++ ' ' :: d) = (x, some d)) ∧
    (∀ h : Str, h ≠ [] → (∀ c ∈ h, wsChar c = false) →
      Fancy.splitHeader h = (h, some h)) := by
  refine ⟨fun x y0 c s q hx hc => ?_, fun x0 c s q hx hc => ?_,
    fun x d hd hws => splitHeader_append x d hd hws,
    fun h hh hws => splitHeader_all h hh hws⟩
  · have hrev : (x ++ ' ' :: (y0 ++ [c])).reverse = c :: (y0.reverse ++ ' ' :: x.reverse) := by
      simp [List.reverse_append, List.reverse_cons, List.append_assoc]
    have htrim : trimRight (x ++ ' ' :: (y0 ++ [c])) = x ++ ' ' :: (y0 ++ [c]) :=
      trimRight_eq_self _ c _ hrev hc
    constructor
    · simp only [Unfancy.Record.idOpt, List.isEmpty_cons, Bool.false_eq_true, if_false,
        List.drop_succ_cons, List.drop_zero]
      rw [htrim, splitFirstSpace_append x _ hx]
    · simp only [Unfancy.Record.descOpt, List.isEmpty_cons, Bool.false_eq_true, if_false,
        List.drop_succ_cons, List.drop_zero]
      rw [htrim, splitFirstSpace_append x _ hx]
  · have hrev : (x0 ++ [c]).reverse = c :: x0.reverse := by
      simp [List.reverse_append]
    have htrim : trimRight (x0 ++ [c]) = x0 ++ [c] :=
      trimRight_eq_self _ c _ hrev hc
    constructor
    · simp only [Unfancy.Record.idOpt, List.isEmpty_cons, Bool.false_eq_true, if_false,
        List.drop_succ_cons, List.drop_zero]
      rw [htrim, splitFirstSpace_no_space _ hx]
    · simp only [Unfancy.Record.descOpt, List.isEmpty_cons, Bool.false_eq_true, if_false,
        List.drop_succ_cons, List.drop_zero]
      rw [htrim, splitFirstSpace_no_space _ hx]

/-- Witness for the amended C2 at concrete headers: strict `@r1 d e` gives
id `r1` and desc `d e` (first-space split, desc keeps its inner space),
strict `@r1` gives desc `None`; descriptive `a b c` splits to (`a b`, `c`)
and whitespace-free `r1` splits to (`r1`, Some `r1`). -/
theorem claim2_amended_witness :
    (Unfancy.Record.mk ('@' :: ("r1".data ++ ' ' :: ("d ".data ++ ['e']))) [] []).idOpt =
      .ok (some "r1".data) ∧
    (Unfancy.Record.mk ('@' :: ("r1".data ++ ' ' :: ("d ".data ++ ['e']))) [] []).descOpt =
      .ok (some ("d ".data ++ ['e'])) ∧
    (Unfancy.Record.mk ('@' :: ("r".data ++ ['1'])) [] []).idOpt =
      .ok (some ("r".data ++ ['1'])) ∧
    (Unfancy.Record.mk ('@' :: ("r".data ++ ['1'])) [] []).descOpt = .ok none ∧
    Fancy.splitHeader ("a b".data ++ ' ' :: "c".data) = ("a b".data, some "c".data) ∧
    Fancy.splitHeader "r1".data = ("r1".data, some "r1".data) :=
  ⟨(claim2_amended.1 "r1".data "d ".data 'e' [] [] (by decide) (by decide)).1,
   (claim2_amended.1 "r1".data "d ".data 'e' [] [] (by decide) (by decide)).2,
   (claim2_amended.2.1 "r".data '1' [] [] (by decide) (by decide)).1,
   (claim2_amended.2.1 "r".data '1' [] [] (by decide) (by decide)).2,
   claim2_amended.2.2.1 "a b".data "c".data (by decide) (by decide),
   claim2_amended.2.2.2 "r1".data (by decide) (by decide)⟩

/-- Claim C4 counterexample: the claim says that once the strict `Records`
iterator yields an error item, no further items are ever produced. On the
input `X\n@a\nb\n+\nc\n` the first call yields an error, and the second
call yields a successful record — a further item. -/
theorem claim4_counterexample :
    (Unfancy.Records.next ⟨"X\n@a\nb\n+\nc\n".data, []⟩).1 =
      some (.error "Expected @ at record start.") ∧
    (Unfancy.Records.next (Unfancy.Records.next ⟨"X\n@a\nb\n+\nc\n".data, []⟩).2).1 =
      some (.ok ⟨"@a\n".data, "b\n".data, "c\n".data⟩) := by
  decide

/-- Claim C4 (amended): the strict `Records` iterator is a single forward
pass that terminates at end-of-stream — on an exhausted stream every call
yields `none` and leaves the stream empty, so no items follow the first
`none` — but it does NOT stop at the first error item: each call parses
independently from the current position, and items may follow an error. -/
theorem claim4_amended :
    (∀ sep : Str, Unfancy.Records.next ⟨[], sep⟩ = (none, ⟨[], sep⟩)) ∧
    ((Unfancy.Records.next ⟨"Y\n@d\ne\n+\nf\n".data, []⟩).1 =
        some (.error "Expected @ at record start.") ∧
      (Unfancy.Records.next (Unfancy.Records.next ⟨"Y\n@d\ne\n+\nf\n".data, []⟩).2).1 =
        some (.ok ⟨"@d\n".data, "e\n".data, "f\n".data⟩)) := by
  exact ⟨fun sep => rfl, by decide⟩

/-- Witness for the amended C4 at a concrete leftover separator buffer. -/
theorem claim4_amended_witness :
    Unfancy.Records.next ⟨[], "x\n".data⟩ = (none, ⟨[], "x\n".data⟩) :=
  claim4_amended.1 "x\n".data

/-- Claim C6: on `@r1\nACGT\n-\n!!!!\n` the descriptive parser yields a
`NoPlus` error carrying the previously assembled text `@r1\nACGT` and the
offending byte `-`, while the strict parser succeeds — for ANY separator
line content (newline-free `c`) it yields the same record, which passes
validation; the strict variant never inspects the separator line. -/
theorem claim6_separator :
    Fancy.FastqReader.next "@r1\nACGT\n-\n!!!!\n".data =
      .ok (some (.error (.NoPlus "@r1\nACGT".data '-')), "!!!!\n".data) ∧
    (∀ c : Str, '\n' ∉ c →
      (Unfancy.Reader.read ⟨"@r1\nACGT\n".data ++ (c ++ '\n' :: "!!!!\n".data), []⟩).1 =
        .ok ⟨"@r1\n".data, "ACGT\n".data, "!!!!\n".data⟩) ∧
    (Unfancy.Record.mk "@r1\n".data "ACGT\n".data "!!!!\n".data).check = .ok (.ok ()) := by
  refine ⟨by decide, fun c hc => ?_, by decide⟩
  have r1 : readLine ("@r1\nACGT\n".data ++ (c ++ '\n' :: "!!!!\n".data)) =
      ("@r1\n".data, "ACGT\n".data ++ (c ++ '\n' :: "!!!!\n".data)) :=
    readLine_append ['@', 'r', '1'] ("ACGT\n".data ++ (c ++ '\n' :: "!!!!\n".data)) (by decide)
  have r2 : readLine ("ACGT\n".data ++ (c ++ '\n' :: "!!!!\n".data)) =
      ("ACGT\n".data, c ++ '\n' :: "!!!!\n".data) :=
    readLine_append ['A', 'C', 'G', 'T'] (c ++ '\n' :: "!!!!\n".data) (by decide)
  have r3 : readLine (c ++ '\n' :: "!!!!\n".data) = (c ++ ['\n'], "!!!!\n".data) :=
    readLine_append c "!!!!\n".data hc
  have r4 : readLine "!!!!\n".data = ("!!!!\n".data, []) := by decide
  unfold Unfancy.Reader.read
  dsimp only
  rw [r1]
  dsimp only
  rw [if_neg (by decide : ¬ ("@r1\n".data : Str).isEmpty = true)]
  rw [if_neg (by decide : ¬ ("@r1\n".data : Str).head? ≠ some '@')]
  rw [r2]
  dsimp only
  rw [r3]
  dsimp only
  rw [r4]
  dsimp only
  rw [if_neg (by decide : ¬ ("!!!!\n".data : Str).isEmpty = true)]

/-- Witness for C6 at the concrete separator line `-`. -/
theorem claim6_separator_witness :
    (Unfancy.Reader.read ⟨"@r1\nACGT\n".data ++ (['-'] ++ '\n' :: "!!!!\n".data), []⟩).1 =
      .ok ⟨"@r1\n".data, "ACGT\n".data, "!!!!\n".data⟩ :=
  claim6_separator.2.1 ['-'] (by decide)

/-- Claim C8 counterexample: the claim quantifies over every record with a
description present and newline-free ASCII fields. It fails when the
description contains whitespace (formatting id `x`, desc `d e` and
re-parsing yields id `x d`, desc `e`) and when sequence and quality lengths
differ (the re-parse yields a `LengthMismatch` error, not a successful
record). -/
theorem claim8_counterexample :
    (Fancy.FastqReader.next (formatRecord ⟨"x".data, some "d e".data, "A".data, "!".data⟩) =
        .ok (some (.ok ⟨"x d".data, some "e".data, "A".data, "!".data⟩), []) ∧
      (some "e".data : Option Str) ≠ some "d e".data) ∧
    Fancy.FastqReader.next (formatRecord ⟨"x".data, some "d".data, "AC".data, "!".data⟩) =
      .ok (some (.error (.LengthMismatch "AC".data "!".data)), []) := by
  decide

/-- Claim C8 (amended): the round trip holds for every record whose
description is present, nonempty and whitespace-free, whose id is
newline-free, and whose sequence and quality are nonempty, newline-free
ASCII strings of equal length: formatting to `@id desc\nseq\n+\nqual\n` and
re-parsing with the descriptive parser yields one successful record equal
field for field, consuming the whole stream. -/
theorem claim8_roundtrip (id0 d seq0 qual0 : Str)
    (hd : d ≠ []) (hdws : ∀ c ∈ d, wsChar c = false)
    (hidn : '\n' ∉ id0) (hseqn : '\n' ∉ seq0) (hqualn : '\n' ∉ qual0)
    (hseqne : seq0 ≠ []) (hqualne : qual0 ≠ [])
    (hlen : seq0.length = qual0.length)
    (ha1 : isAsciiStr id0 = true) (ha2 : isAsciiStr d = true)
    (ha3 : isAsciiStr seq0 = true) (ha4 : isAsciiStr qual0 = true) :
    Fancy.FastqReader.next (formatRecord ⟨id0, some d, seq0, qual0⟩) =
      .ok (some (.ok ⟨id0, some d, seq0, qual0⟩), []) := by
  have hh : '\n' ∉ id0 ++ ' ' :: d := by
    intro m
    rcases List.mem_append.mp m with m1 | m2
    · exact hidn m1
    · rcases List.mem_cons.mp m2 with e | m3
      · exact absurd e (by decide)
      · have hw := hdws '\n' m3
        simp [wsChar] at hw
  have hhne : id0 ++ ' ' :: d ≠ [] := by simp
  show Fancy.FastqReader.next
      ('@' :: ((id0 ++ ' ' :: d) ++ '\n' :: (seq0 ++ '\n' :: ('+' :: '\n' :: (qual0 ++ ['\n']))))) = _
  simp only [Fancy.FastqReader.next]
  rw [if_neg (by simp : ¬ ('@' ≠ '@'))]
  rw [read_line_without_nl_ok _ _ _ hh hhne]
  dsimp only
  rw [splitHeader_append id0 d hd hdws]
  dsimp only
  rw [read_line_without_nl_ok seq0 ('+' :: '\n' :: (qual0 ++ ['\n'])) _ hseqn hseqne]
  dsimp only
  rw [show readLine ('+' :: '\n' :: (qual0 ++ ['\n'])) = (['+', '\n'], qual0 ++ ['\n']) from by
    simp [readLine]]
  dsimp only [List.head?]
  rw [if_pos rfl]
  rw [read_line_without_nl_ok qual0 [] _ hqualn hqualne]
  dsimp only
  rw [if_pos hlen]
  rfl

/-- Witness for the amended C8 at the record
(id `r1`, desc `desc`, seq `ACGT`, qual `!!!!`). -/
theorem claim8_roundtrip_witness :
    Fancy.FastqReader.next (formatRecord ⟨"r1".data, some "desc".data, "ACGT".data, "!!!!".data⟩) =
      .ok (some (.ok ⟨"r1".data, some "desc".data, "ACGT".data, "!!!!".data⟩), []) :=
  claim8_roundtrip "r1".data "desc".data "ACGT".data "!!!!".data
    (by decide) (by decide) (by decide) (by decide) (by decide) (by decide)
    (by decide) (by decide) (by decide) (by decide) (by decide) (by decide)
